import Mathlib

/-!
Verification of the Fitment Resolution Engine
(`src/agent/tools/qdrant_retriever.py`, `src/agent/tools/fitments_tools.py`).

The Python code is shallowly embedded over `List Char` (ASCII character
model, matching the catalog data the engine handles).  Scores are modelled
as rationals.  External collaborators (embedding client, vector index,
relational store) are passed in as values: a successful call carries the
returned rows or points, a raised exception is an `Except.error`.  The
`try/except` wrappers of the source correspond to the `match` on those
`Except` values.
-/

/-- Strings of the embedding: Python `str` as a list of characters. -/
abbrev Str := List Char

/-- Python `str.lower()` (ASCII). -/
def lowerStr (s : Str) : Str := s.map Char.toLower

/-- Python `str.upper()` (ASCII). -/
def upperStr (s : Str) : Str := s.map Char.toUpper

/-- ASCII whitespace recognised by Python `str.strip()` and `\s`. -/
def isSpaceChar (c : Char) : Bool :=
  c = ' ' || c = '\t' || c = '\n' || c = '\x0d' || c = '\x0b' || c = '\x0c'

/-- Python `str.strip()`. -/
def stripStr (s : Str) : Str :=
  ((s.dropWhile isSpaceChar).reverse.dropWhile isSpaceChar).reverse

/-- Python substring test `pat in s` on strings. -/
def isSubstr (pat : Str) : Str → Bool
  | [] => pat.isEmpty
  | c :: rest => pat.isPrefixOf (c :: rest) || isSubstr pat rest

/-- A word character of the regex `\b` boundary: `[A-Za-z0-9_]` (ASCII `\w`). -/
def isWordChar (c : Char) : Bool := c.isAlphanum || c = '_'

/-- First two characters of the year alternation `(19\d{2}|20\d{2})`. -/
def isYearStart (a b : Char) : Bool := (a = '1' && b = '9') || (a = '2' && b = '0')

/-- Right word boundary: the character that follows the match, if any, is not
a word character. -/
def headNotWord : Str → Bool
  | [] => true
  | c :: _ => !isWordChar c

/-- Model of `re.search(r'\b(19\d{2}|20\d{2})\b', s)` (source line 119):
scan left to right for the first word-boundary-delimited year-shaped run.
`pw` records whether the character just before the current position is a
word character (false at the start of the string). -/
def yearSearch (pw : Bool) : Str → Option Str
  | a :: b :: c :: d :: rest =>
    if !pw && isYearStart a b && c.isDigit && d.isDigit && headNotWord rest then
      some [a, b, c, d]
    else yearSearch (isWordChar a) (b :: c :: d :: rest)
  | _ => none

/-- Model of `re.sub(r'\b(19\d{2}|20\d{2})\b', '', s)` (source line 123):
remove every word-boundary-delimited year-shaped run, scanning left to
right without overlap. -/
def yearRemove (pw : Bool) : Str → Str
  | a :: b :: c :: d :: rest =>
    if !pw && isYearStart a b && c.isDigit && d.isDigit && headNotWord rest then
      yearRemove true rest
    else a :: yearRemove (isWordChar a) (b :: c :: d :: rest)
  | s => s

/-- Token delimiters of the tokenizing split (source line 130): whitespace,
hyphen, slash, comma. -/
def isDelim (c : Char) : Bool := isSpaceChar c || c = '-' || c = '/' || c = ','

/-- The tokenizing `re.split` on whitespace, hyphen, slash and comma followed
by dropping empty tokens (source lines 130-131). -/
def splitDelim (s : Str) : List Str :=
  (s.splitOnP isDelim).filter (fun t => !t.isEmpty)

/-- Python `s.split()`: split on whitespace runs, dropping empty fields. -/
def splitWs (s : Str) : List Str :=
  (s.splitOnP isSpaceChar).filter (fun t => !t.isEmpty)

/-- The `vehicle_types` stoplist (source lines 126-127).  The multi-word
entries can never equal a single token but are kept faithfully. -/
def vehicleTypes : List Str :=
  ["motorcycle", "atv", "scooter", "snowmobile", "utv",
   "pwc", "jet ski", "side-by-side", "dirt bike", "bike"].map String.toList

/-- The `known_makes` directory (source lines 137-144). -/
def knownMakes : List Str :=
  ["honda", "yamaha", "kawasaki", "suzuki", "bmw", "ducati", "ktm",
   "harley", "triumph", "aprilia", "indian", "victory", "moto guzzi",
   "arctic cat", "polaris", "can-am", "sea-doo", "ski-doo", "bombardier",
   "aeon", "benzai", "kymco", "sym", "piaggio", "vespa", "peugeot",
   "husqvarna", "beta", "gas gas", "sherco", "tm", "royal enfield",
   "cfmoto", "linhai", "hisun", "massimo", "argo", "textron"].map String.toList

/-- Output shape of `_extract_search_terms`. -/
structure SearchTerms where
  year : Option Str
  make : Option Str
  model_terms : List Str
  all_terms : List Str
  original_query : Str
deriving DecidableEq, Repr

/-- Make detection over the significant tokens (source lines 146-159):
a leading known make, or a leading two-token compound make, is split off;
otherwise all significant tokens are model terms. -/
def makeModelSplit (sig : List Str) : Option Str × List Str :=
  match sig with
  | [] => (none, sig)
  | t0 :: rest =>
    if knownMakes.contains t0 then (some t0, rest)
    else
      match rest with
      | t1 :: rest2 =>
        if knownMakes.contains (t0 ++ [' '] ++ t1) then
          (some (t0 ++ [' '] ++ t1), rest2)
        else (none, sig)
      | [] => (none, sig)

/-- Embedding of `_extract_search_terms` (source lines 93-167). -/
def extractSearchTerms (query : Str) : SearchTerms :=
  let normalized := stripStr (lowerStr query)
  let year := yearSearch false normalized
  let query_without_year := stripStr (yearRemove false normalized)
  let tokens := splitDelim query_without_year
  let significant_tokens := tokens.filter (fun t => !vehicleTypes.contains t)
  let mm := makeModelSplit significant_tokens
  { year := year
    make := mm.1
    model_terms := mm.2
    all_terms := significant_tokens
    original_query := query }

/-- A catalog record as carried in a vector-index payload
(`result_dict` of source lines 403-413). -/
structure FitmentRecord where
  make : Str
  model : Str
  year : Str
  chrome_model : Str
  chrome_sku : Str
  yuasa_model : Str
  document : Str
deriving DecidableEq, Repr

/-- Python `term.isdigit()` (ASCII): nonempty and all digits. -/
def isDigitStr (t : Str) : Bool := !t.isEmpty && t.all Char.isDigit

/-- The record model text normalized for comparison (source lines 196-197):
lowercase, slashes and hyphens replaced by spaces. -/
def resultModelNormalized (r : FitmentRecord) : Str :=
  ((lowerStr r.model).map (fun c => if c = '/' then ' ' else c)).map
    (fun c => if c = '-' then ' ' else c)

/-- The token set of the normalized record model (source line 198). -/
def resultModelTokens (r : FitmentRecord) : List Str :=
  splitWs (resultModelNormalized r)

/-- Per-term credit of the model-term loop (source lines 206-224): numeric
terms only get credit from an exact token match; other terms get 1 for a
token or substring match and 1/2 for a partial token overlap. -/
def modelTermCredit (toks : List Str) (rmn : Str) (term : Str) : ℚ :=
  if isDigitStr term then
    if toks.contains term then 1 else 0
  else if toks.contains term then 1
  else if isSubstr term rmn then 1
  else if toks.any (fun tok => isSubstr term tok || isSubstr tok term) then 1/2
  else 0

/-- First word of the query make, `query_make.split()[0]` (source line 235). -/
def firstWord (s : Str) : Str := (splitWs s).headD []

/-- The model-term component of the validation score
(source lines 202-227, weight 0.6). -/
def modelScore (r : FitmentRecord) (st : SearchTerms) : ℚ :=
  if st.model_terms.isEmpty then 0
  else
    let model_matches :=
      (st.model_terms.map
        (modelTermCredit (resultModelTokens r) (resultModelNormalized r))).sum
    min (model_matches / (st.model_terms.length : ℚ)) 1 * (3/5)

/-- The make component of the validation score (source lines 229-236,
weight 0.25 full / 0.15 partial). -/
def makeScore (r : FitmentRecord) (st : SearchTerms) : ℚ :=
  match st.make with
  | none => 0
  | some qm =>
    if isSubstr qm (lowerStr r.make) || isSubstr (lowerStr r.make) qm then 1/4
    else if isSubstr (firstWord qm) (lowerStr r.make) then 3/20
    else 0

/-- The year component of the validation score (source lines 238-242,
weight 0.15). -/
def yearScore (r : FitmentRecord) (st : SearchTerms) : ℚ :=
  match st.year with
  | none => 0
  | some qy => if qy = r.year then 3/20 else 0

/-- The all-terms fallback value (source lines 247-254): fraction of
`all_terms` occurring in the record's model or make text, scaled by 0.5. -/
def allTermsScore (r : FitmentRecord) (st : SearchTerms) : ℚ :=
  let term_matches :=
    (st.all_terms.filter fun t =>
      isSubstr t (resultModelNormalized r) || isSubstr t (lowerStr r.make)).length
  min ((term_matches : ℚ) / (st.all_terms.length : ℚ)) 1 * (1/2)

/-- The weighted validation score of `_validate_vehicle_match`
(source lines 169-260). -/
def validateScore (r : FitmentRecord) (st : SearchTerms) : ℚ :=
  let base := modelScore r st + makeScore r st + yearScore r st
  if st.model_terms.isEmpty && st.make.isNone then
    if !st.all_terms.isEmpty then max base (allTermsScore r st)
    else base
  else base

/-- The `(is_valid, confidence_score)` pair returned by
`_validate_vehicle_match` (source lines 256-260): valid iff the validation
score reaches the 0.3 threshold. -/
def validateVehicleMatch (r : FitmentRecord) (st : SearchTerms) : Bool × ℚ :=
  (decide ((3 : ℚ)/10 ≤ validateScore r st), validateScore r st)

/-- A scored point returned by the vector index. -/
structure ScoredPoint where
  payload : FitmentRecord
  score : ℚ
deriving DecidableEq, Repr

/-- A result dict of the resolution pipeline.  Semantic candidates carry
`semantic_score`/`match_score` and no `source`; fallback candidates carry
`source = "supabase_fallback"` and neither of the other two keys. -/
structure CandidateMatch where
  record : FitmentRecord
  semantic_score : Option ℚ
  match_score : Option ℚ
  score : ℚ
  source : Option Str
deriving DecidableEq, Repr

/-- A row of the `chrome_fitments` relational table. -/
structure FallbackRow where
  id : Nat
  vehicle_type : Str
  make : Str
  model : Str
  year : Str
  cc : Str
  chrome_model : Str
  chrome_sku : Str
  yuasa_model : Str
deriving DecidableEq, Repr

/-- The conjunction of the PostgREST filters built by
`_supabase_fallback_search` (source lines 302-312).  Chained `.ilike`/`.eq`
filters conjoin; `ilike` with a `%term%` pattern (no wildcard metacharacters
in catalog terms) is case-insensitive containment, `.eq` is exact equality.
Terms shorter than 2 characters are skipped. -/
def rowMatchesFilter (search_list : List Str) (qmake qyear : Option Str)
    (row : FallbackRow) : Bool :=
  (search_list.all fun term =>
    if 2 ≤ term.length then isSubstr (lowerStr term) (lowerStr row.model) else true) &&
  (match qmake with
   | none => true
   | some m => isSubstr (lowerStr m) (lowerStr row.make)) &&
  (match qyear with
   | none => true
   | some y => row.year == y)

/-- Formatting of one fallback row (source lines 328-339): fixed score 0.8,
source tag `supabase_fallback`. -/
def fallbackCandidate (row : FallbackRow) : CandidateMatch :=
  { record :=
      { make := row.make, model := row.model, year := row.year,
        chrome_model := row.chrome_model, chrome_sku := row.chrome_sku,
        yuasa_model := row.yuasa_model,
        document := "Fallback: ".toList ++ row.make ++ [' '] ++ row.model ++ [' '] ++ row.year }
    semantic_score := none
    match_score := none
    score := 4/5
    source := some ("supabase_fallback".toList) }

/-- The format-deduplicate-break loop of `_supabase_fallback_search`
(source lines 321-342): deduplicate by nonempty `chrome_model` (exact
comparison) and stop as soon as `top_k` results are collected. -/
def fallbackLoop (top_k : Nat) :
    List FallbackRow → List Str → List CandidateMatch → List CandidateMatch
  | [], _, acc => acc
  | row :: rest, seen, acc =>
    let step :=
      if !row.chrome_model.isEmpty && !seen.contains row.chrome_model then
        (row.chrome_model :: seen, acc ++ [fallbackCandidate row])
      else (seen, acc)
    if top_k ≤ step.2.length then step.2
    else fallbackLoop top_k rest step.1 step.2

/-- The `search_list` of `_supabase_fallback_search` (source line 291):
model terms if any, otherwise all terms. -/
def fallbackSearchList (st : SearchTerms) : List Str :=
  if st.model_terms.isEmpty then st.all_terms else st.model_terms

/-- Embedding of `_supabase_fallback_search` (source lines 262-349): `storeRes` is the
relational store's response to the filtered query: the full table on
success (the filter and the `limit(top_k * 3)` cap are applied here), or an
error.  Any store error yields `[]` (source lines 347-349). -/
def supabaseFallbackSearch (st : SearchTerms)
    (storeRes : Except Unit (List FallbackRow)) (top_k : Nat) : List CandidateMatch :=
  if (fallbackSearchList st).isEmpty then []
  else
    match storeRes with
    | .error _ => []
    | .ok rows =>
      let data :=
        (rows.filter (rowMatchesFilter (fallbackSearchList st) st.make st.year)).take (top_k * 3)
      if data.isEmpty then [] else fallbackLoop top_k data [] []

/-- The validate-fuse-sort-truncate stage of `search_battery_for_vehicle`
(source lines 399-429): keep valid candidates, fuse
`combined = semantic * 0.4 + validation * 0.6`, sort descending by combined
score (stable, as Python `list.sort`), truncate to `top_k`. -/
def semanticStage (query : Str) (points : List ScoredPoint) (top_k : Nat) :
    List CandidateMatch :=
  let st := extractSearchTerms query
  let validated := points.filterMap fun p =>
    if (3 : ℚ)/10 ≤ validateScore p.payload st then
      some { record := p.payload
             semantic_score := some p.score
             match_score := some (validateScore p.payload st)
             score := p.score * (2/5) + validateScore p.payload st * (3/5)
             source := none }
    else (none : Option CandidateMatch)
  (validated.mergeSort fun a b => decide (b.score ≤ a.score)).take top_k

/-- Embedding of `search_battery_for_vehicle` (source lines 351-445): `indexRes` is the
embedding-plus-vector-query stage: the retrieved points on success, an
error if either remote call raised (then the outer `except` returns `[]`);
if no validated candidate survives, the Supabase fallback runs. -/
def searchBatteryForVehicle (query : Str)
    (indexRes : Except Unit (List ScoredPoint))
    (storeRes : Except Unit (List FallbackRow)) (top_k : Nat) : List CandidateMatch :=
  match indexRes with
  | .error _ => []
  | .ok points =>
    let top := semanticStage query points top_k
    if top.isEmpty then supabaseFallbackSearch (extractSearchTerms query) storeRes top_k
    else top

/-- Python `s.replace("-BS", "")`: remove every occurrence of `-BS`,
scanning left to right without overlap (source lines 476 and 516). -/
def removeBS : Str → Str
  | '-' :: 'B' :: 'S' :: rest => removeBS rest
  | c :: rest => c :: removeBS rest
  | [] => []

/-- Python `s.replace("-", "")` (source lines 478 and 508). -/
def stripDashes (s : Str) : Str := s.filter (fun c => c ≠ '-')

/-- The `-BS` suffix marker. -/
def bsSuffix : Str := "-BS".toList

/-- Normalization of the queried battery identifier
(source lines 471-479): returns `(model_without_bs, model_with_bs)`. -/
def normalizeBatteryModel (battery_model : Str) : Str × Str :=
  let normalized := stripStr (upperStr battery_model)
  if bsSuffix.isSuffixOf normalized then
    (removeBS normalized, normalized)
  else
    let without := stripDashes normalized
    (without, without ++ bsSuffix)

/-- The `search_variants` set (source lines 505-509). -/
def batteryVariants (battery_model : Str) : List Str :=
  let nm := normalizeBatteryModel battery_model
  [nm.1, nm.2, stripDashes nm.1]

/-- The acceptance test of `search_vehicles_for_battery`
(source lines 511-526): membership of the normalized or raw stored
identifier in the variant set, or equality/containment against
`model_without_bs`. -/
def vehicleAccept (battery_model : Str) (chrome_model_raw : Str) : Bool :=
  let without := (normalizeBatteryModel battery_model).1
  let variants := batteryVariants battery_model
  let chrome := upperStr chrome_model_raw
  let stored_normalized := stripDashes (removeBS chrome)
  variants.contains stored_normalized || variants.contains chrome ||
    without == stored_normalized || isSubstr without stored_normalized ||
    isSubstr stored_normalized without

/-- A vehicle result of the battery-to-vehicle direction
(source lines 529-538). -/
structure VehicleResult where
  record : FitmentRecord
  score : ℚ
deriving DecidableEq, Repr

/-- The collect-until-`top_k` loop of `search_vehicles_for_battery`
(source lines 511-542). -/
def vehicleLoop (battery_model : Str) (top_k : Nat) :
    List ScoredPoint → List VehicleResult → List VehicleResult
  | [], acc => acc
  | p :: rest, acc =>
    if vehicleAccept battery_model p.payload.chrome_model then
      let acc2 := acc ++ [{ record := p.payload, score := p.score }]
      if top_k ≤ acc2.length then acc2 else vehicleLoop battery_model top_k rest acc2
    else vehicleLoop battery_model top_k rest acc

/-- Embedding of `search_vehicles_for_battery` (source lines 447-549): any collaborator
error yields `[]` via the outer `except`. -/
def searchVehiclesForBattery (battery_model : Str)
    (indexRes : Except Unit (List ScoredPoint)) (top_k : Nat) : List VehicleResult :=
  match indexRes with
  | .error _ => []
  | .ok points => vehicleLoop battery_model top_k points []

/-- The deduplication loop of `_format_battery_results`
(`fitments_tools.py` lines 32-39): keep a result when its `chrome_model`
is nonempty and was not seen before (exact string comparison). -/
def uniqueBatteriesAux : List CandidateMatch → List Str → List CandidateMatch
  | [], _ => []
  | r :: rest, seen =>
    if !r.record.chrome_model.isEmpty && !seen.contains r.record.chrome_model then
      r :: uniqueBatteriesAux rest (r.record.chrome_model :: seen)
    else uniqueBatteriesAux rest seen

/-- The `unique_batteries` list as computed by `_format_battery_results`. -/
def uniqueBatteries (results : List CandidateMatch) : List CandidateMatch :=
  uniqueBatteriesAux results []

/-- The primary recommendation (`fitments_tools.py` lines 62-66):
the first surviving entry of the deduplicated list. -/
def primaryRecommendation (results : List CandidateMatch) : Option CandidateMatch :=
  (uniqueBatteries results).head?

/-- Modelled from the spec's words (§4.5 step 4, claim C4): a candidate is
accepted iff its normalized stored identifier equals, contains, or is
contained by one of the three canonical spellings.  Stated for comparison
with `vehicleAccept`, which is the code's condition. -/
def specVehicleAccept (battery_model : Str) (chrome_model_raw : Str) : Bool :=
  let variants := batteryVariants battery_model
  let stored_normalized := stripDashes (removeBS (upperStr chrome_model_raw))
  variants.any fun v =>
    stored_normalized == v || isSubstr v stored_normalized ||
      isSubstr stored_normalized v

/-- Modelled from the spec's words (§4.6, claim C5): deduplication by
canonical battery identifier compared case-insensitively.  Stated for
comparison with `uniqueBatteriesAux`, which compares exactly. -/
def specDedupCIAux : List CandidateMatch → List Str → List CandidateMatch
  | [], _ => []
  | r :: rest, seen =>
    if !r.record.chrome_model.isEmpty && !seen.contains (lowerStr r.record.chrome_model) then
      r :: specDedupCIAux rest (lowerStr r.record.chrome_model :: seen)
    else specDedupCIAux rest seen

/-- Case-insensitive deduplication following the spec's words (claim C5). -/
def specDedupCI (results : List CandidateMatch) : List CandidateMatch :=
  specDedupCIAux results []

/-- The validator without its all-terms fallback branch (claim C9 states the
branch never fires on Normalizer output; this definition is the comparison
point: `validateScore` with source lines 244-254 removed). -/
def validateScoreNoFallbackBranch (r : FitmentRecord) (st : SearchTerms) : ℚ :=
  modelScore r st + makeScore r st + yearScore r st

/-- A word-boundary-delimited year-shaped run of the regex alternation. -/
def yearShape (t : Str) : Prop :=
  ∃ a b c d, t = [a, b, c, d] ∧ isYearStart a b = true ∧
    c.isDigit = true ∧ d.isDigit = true

/-- Left word boundary, relative to the scanner state `pw` (whether the
character just before the window is a word character). -/
def leftBoundary (pw : Bool) (pre : Str) : Prop :=
  (pre = [] → pw = false) ∧ (∀ c, pre.getLast? = some c → isWordChar c = false)

/-- Right word boundary after the matched window. -/
def rightBoundary (post : Str) : Prop :=
  ∀ c, post.head? = some c → isWordChar c = false

/-- Numeric value of a digit string (most significant digit first). -/
def strToNat (t : Str) : Nat := t.foldl (fun n c => 10 * n + (c.toNat - 48)) 0

/-- Modelled from the claim's words (C8): a 4-digit token whose numeric
value lies in the range 1900-2099. -/
def isYearToken (t : Str) : Prop :=
  t.length = 4 ∧ (∀ c ∈ t, c.isDigit = true) ∧
    1900 ≤ strToNat t ∧ strToNat t ≤ 2099

/-- Modelled from the claim's words (C8): the string contains a 4-digit
token in range 1900-2099, where a token is a maximal word-character run
(the regex `\b` boundary notion, ASCII). -/
def containsYearToken (q : Str) : Prop :=
  ∃ pre t post, q = pre ++ t ++ post ∧ isYearToken t ∧
    (∀ c, pre.getLast? = some c → isWordChar c = false) ∧
    (∀ c, post.head? = some c → isWordChar c = false)

theorem modelTermCredit_nonneg (toks : List Str) (rmn : Str) (term : Str) :
    0 ≤ modelTermCredit toks rmn term := by
  unfold modelTermCredit
  repeat' split
  all_goals norm_num

theorem modelTermCredit_le_one (toks : List Str) (rmn : Str) (term : Str) :
    modelTermCredit toks rmn term ≤ 1 := by
  unfold modelTermCredit
  repeat' split
  all_goals norm_num

theorem modelScore_nonneg (r : FitmentRecord) (st : SearchTerms) :
    0 ≤ modelScore r st := by
  unfold modelScore
  split
  · norm_num
  · have hs : (0 : ℚ) ≤ (st.model_terms.map
        (modelTermCredit (resultModelTokens r) (resultModelNormalized r))).sum :=
      List.sum_nonneg (by
        intro x hx
        obtain ⟨t, _, rfl⟩ := List.mem_map.mp hx
        exact modelTermCredit_nonneg _ _ _)
    have hd : (0 : ℚ) ≤ (st.model_terms.map
        (modelTermCredit (resultModelTokens r) (resultModelNormalized r))).sum
          / (st.model_terms.length : ℚ) :=
      div_nonneg hs (by positivity)
    have := le_min hd (by norm_num : (0:ℚ) ≤ 1)
    nlinarith

theorem modelScore_le (r : FitmentRecord) (st : SearchTerms) :
    modelScore r st ≤ 3/5 := by
  unfold modelScore
  split
  · norm_num
  · have := min_le_right ((st.model_terms.map
        (modelTermCredit (resultModelTokens r) (resultModelNormalized r))).sum
          / (st.model_terms.length : ℚ)) (1 : ℚ)
    nlinarith

theorem makeScore_nonneg (r : FitmentRecord) (st : SearchTerms) :
    0 ≤ makeScore r st := by
  unfold makeScore
  repeat' split
  all_goals norm_num

theorem makeScore_le (r : FitmentRecord) (st : SearchTerms) :
    makeScore r st ≤ 1/4 := by
  unfold makeScore
  repeat' split
  all_goals norm_num

theorem yearScore_nonneg (r : FitmentRecord) (st : SearchTerms) :
    0 ≤ yearScore r st := by
  unfold yearScore
  repeat' split
  all_goals norm_num

theorem yearScore_le (r : FitmentRecord) (st : SearchTerms) :
    yearScore r st ≤ 3/20 := by
  unfold yearScore
  repeat' split
  all_goals norm_num

theorem allTermsScore_nonneg (r : FitmentRecord) (st : SearchTerms) :
    0 ≤ allTermsScore r st := by
  unfold allTermsScore
  have hd : (0 : ℚ) ≤
      ((((st.all_terms.filter fun t =>
        isSubstr t (resultModelNormalized r) || isSubstr t (lowerStr r.make)).length : ℚ))
          / (st.all_terms.length : ℚ)) := by positivity
  have := le_min hd (by norm_num : (0:ℚ) ≤ 1)
  nlinarith

theorem allTermsScore_le (r : FitmentRecord) (st : SearchTerms) :
    allTermsScore r st ≤ 1/2 := by
  unfold allTermsScore
  have := min_le_right
    ((((st.all_terms.filter fun t =>
      isSubstr t (resultModelNormalized r) || isSubstr t (lowerStr r.make)).length : ℚ))
        / (st.all_terms.length : ℚ)) (1 : ℚ)
  nlinarith

theorem validateScore_nonneg (r : FitmentRecord) (st : SearchTerms) :
    0 ≤ validateScore r st := by
  have h1 := modelScore_nonneg r st
  have h2 := makeScore_nonneg r st
  have h3 := yearScore_nonneg r st
  have h4 := allTermsScore_nonneg r st
  unfold validateScore
  dsimp only
  repeat' split
  · exact le_max_of_le_left (by linarith)
  all_goals linarith

theorem validateScore_le_one (r : FitmentRecord) (st : SearchTerms) :
    validateScore r st ≤ 1 := by
  have h1 := modelScore_le r st
  have h2 := makeScore_le r st
  have h3 := yearScore_le r st
  have h4 := allTermsScore_le r st
  have h1n := modelScore_nonneg r st
  have h2n := makeScore_nonneg r st
  unfold validateScore
  dsimp only
  split
  · rename_i hcond
    have hmt : st.model_terms.isEmpty = true := by
      cases hmt : st.model_terms.isEmpty <;> simp [hmt] at hcond ⊢
    have hmk : st.make.isNone = true := by
      cases hmk : st.make.isNone <;> simp [hmk, hmt] at hcond ⊢
    have hms : modelScore r st = 0 := by unfold modelScore; simp [hmt]
    have hks : makeScore r st = 0 := by
      unfold makeScore
      cases hmk2 : st.make with
      | none => simp
      | some m => simp [hmk2] at hmk
    split
    · exact max_le (by linarith) (by linarith)
    · linarith
  · linarith

theorem mem_fallbackLoop (k : Nat) :
    ∀ (rows : List FallbackRow) (seen : List Str) (acc : List CandidateMatch)
      (c : CandidateMatch), c ∈ fallbackLoop k rows seen acc →
      c ∈ acc ∨ ∃ row ∈ rows, c = fallbackCandidate row := by
  intro rows
  induction rows with
  | nil =>
    intro seen acc c hc
    exact Or.inl hc
  | cons row rest ih =>
    intro seen acc c hc
    unfold fallbackLoop at hc
    dsimp only at hc
    by_cases hcond : (!row.chrome_model.isEmpty && !seen.contains row.chrome_model) = true
    · rw [if_pos hcond] at hc
      dsimp only at hc
      split at hc
      · rcases List.mem_append.mp hc with h | h
        · exact Or.inl h
        · exact Or.inr ⟨row, List.mem_cons_self _ _, (List.mem_singleton.mp h)⟩
      · rcases ih _ _ _ hc with h | h
        · rcases List.mem_append.mp h with h2 | h2
          · exact Or.inl h2
          · exact Or.inr ⟨row, List.mem_cons_self _ _, (List.mem_singleton.mp h2)⟩
        · obtain ⟨row2, hrow2, hc2⟩ := h
          exact Or.inr ⟨row2, List.mem_cons_of_mem _ hrow2, hc2⟩
    · rw [if_neg hcond] at hc
      dsimp only at hc
      split at hc
      · exact Or.inl hc
      · rcases ih _ _ _ hc with h | h
        · exact Or.inl h
        · obtain ⟨row2, hrow2, hc2⟩ := h
          exact Or.inr ⟨row2, List.mem_cons_of_mem _ hrow2, hc2⟩

theorem mem_supabaseFallbackSearch (st : SearchTerms) (rows : List FallbackRow)
    (k : Nat) (c : CandidateMatch)
    (hc : c ∈ supabaseFallbackSearch st (.ok rows) k) :
    ∃ row ∈ rows, c = fallbackCandidate row ∧
      rowMatchesFilter (fallbackSearchList st) st.make st.year row = true := by
  unfold supabaseFallbackSearch at hc
  dsimp only at hc
  split at hc
  · exact absurd hc (List.not_mem_nil c)
  · split at hc
    · exact absurd hc (List.not_mem_nil c)
    · rcases mem_fallbackLoop k _ _ _ _ hc with h | h
      · exact absurd h (List.not_mem_nil c)
      · obtain ⟨row, hrow, hcrow⟩ := h
        have hrow2 := List.take_subset _ _ hrow
        have hrow3 := List.mem_filter.mp hrow2
        exact ⟨row, hrow3.1, hcrow, hrow3.2⟩

theorem supabaseFallbackSearch_error (st : SearchTerms) (e : Unit) (k : Nat) :
    supabaseFallbackSearch st (.error e) k = [] := by
  unfold supabaseFallbackSearch
  split <;> rfl

theorem supabaseFallbackSearch_empty_store (st : SearchTerms) (k : Nat) :
    supabaseFallbackSearch st (.ok []) k = [] := by
  unfold supabaseFallbackSearch
  split
  · rfl
  · simp [List.take_nil]

/-- Membership characterization for the battery-for-vehicle orchestrator on a
successful index call: every returned candidate is either a validated
semantic candidate built from a retrieved point, or a fallback candidate. -/
theorem mem_searchBatteryForVehicle (query : Str) (pts : List ScoredPoint)
    (storeRes : Except Unit (List FallbackRow)) (k : Nat) (c : CandidateMatch)
    (hc : c ∈ searchBatteryForVehicle query (.ok pts) storeRes k) :
    (∃ p ∈ pts, (3 : ℚ)/10 ≤ validateScore p.payload (extractSearchTerms query) ∧
      c = { record := p.payload
            semantic_score := some p.score
            match_score := some (validateScore p.payload (extractSearchTerms query))
            score := p.score * (2/5) +
              validateScore p.payload (extractSearchTerms query) * (3/5)
            source := none }) ∨
    (∃ rows, storeRes = .ok rows ∧ ∃ row ∈ rows, c = fallbackCandidate row) := by
  unfold searchBatteryForVehicle at hc
  dsimp only at hc
  split at hc
  · -- fallback was taken
    right
    cases storeRes with
    | error e => rw [supabaseFallbackSearch_error] at hc; exact absurd hc (List.not_mem_nil c)
    | ok rows =>
      obtain ⟨row, hrow, hcrow, _⟩ := mem_supabaseFallbackSearch _ _ _ _ hc
      exact ⟨rows, rfl, row, hrow, hcrow⟩
  · -- semantic path
    left
    have hc2 : c ∈ (List.filterMap (fun p =>
        if (3 : ℚ)/10 ≤ validateScore p.payload (extractSearchTerms query) then
          some { record := p.payload
                 semantic_score := some p.score
                 match_score := some (validateScore p.payload (extractSearchTerms query))
                 score := p.score * (2/5) +
                   validateScore p.payload (extractSearchTerms query) * (3/5)
                 source := none }
        else (none : Option CandidateMatch)) pts) := by
      have hmem := (List.take_sublist k _).mem hc
      exact ((List.mergeSort_perm _ _).mem_iff).mp hmem
    obtain ⟨p, hp, hfp⟩ := List.mem_filterMap.mp hc2
    by_cases hv : (3 : ℚ)/10 ≤ validateScore p.payload (extractSearchTerms query)
    · rw [if_pos hv] at hfp
      exact ⟨p, hp, hv, (Option.some_injective _ hfp).symm⟩
    · rw [if_neg hv] at hfp
      exact absurd hfp (Option.noConfusion)

/-- C1 (amended): for every candidate returned by the battery-for-vehicle
orchestrator, assuming the index's semantic scores lie in [0,1], the
combined score lies in [0,1], and every semantic candidate carries a
validation score (`match_score`) of at least 0.3: the 0.3 validity test is
applied to the validation score, not to the combined score. -/
theorem battery_search_combined_score_bounds (query : Str) (pts : List ScoredPoint)
    (storeRes : Except Unit (List FallbackRow)) (k : Nat)
    (hsem : ∀ p ∈ pts, 0 ≤ p.score ∧ p.score ≤ 1) :
    ∀ c ∈ searchBatteryForVehicle query (.ok pts) storeRes k,
      (0 ≤ c.score ∧ c.score ≤ 1) ∧
      (∀ ms, c.match_score = some ms → (3 : ℚ)/10 ≤ ms) := by
  intro c hc
  rcases mem_searchBatteryForVehicle query pts storeRes k c hc with
    ⟨p, hp, hv, rfl⟩ | ⟨rows, _, row, _, rfl⟩
  · obtain ⟨hs0, hs1⟩ := hsem p hp
    have hv0 := validateScore_nonneg p.payload (extractSearchTerms query)
    have hv1 := validateScore_le_one p.payload (extractSearchTerms query)
    refine ⟨⟨by dsimp only; nlinarith, by dsimp only; nlinarith⟩, ?_⟩
    intro ms hms
    have : validateScore p.payload (extractSearchTerms query) = ms :=
      Option.some_injective _ hms
    linarith
  · constructor
    · constructor <;> · show _ ≤ _; unfold fallbackCandidate; norm_num
    · intro ms hms
      exact absurd hms (by unfold fallbackCandidate; simp)

/-- C1 counterexample: on query "cbr600rr", a record with model "cbr600" and
semantic score 0.1 is judged valid (validation score exactly 0.3) and is
returned, yet its combined score is 0.22 < 0.3.  So a returned (valid)
candidate can have `combined_score < 0.3`, refuting the claimed
`is_valid ⇔ combined_score ≥ 0.3`. -/
theorem battery_search_below_threshold_returned :
    ∃ c ∈ searchBatteryForVehicle ("cbr600rr".toList)
        (.ok [{ payload := { make := [], model := "cbr600".toList, year := [],
                             chrome_model := "YTZ7S".toList, chrome_sku := [],
                             yuasa_model := [], document := [] },
                score := 1/10 }]) (.ok []) 5,
      c.match_score = some (3/10) ∧ c.score = 11/50 ∧ ¬ ((3 : ℚ)/10 ≤ c.score) := by
  have hst : extractSearchTerms ("cbr600rr".toList) =
      { year := none, make := none,
        model_terms := ["cbr600rr".toList], all_terms := ["cbr600rr".toList],
        original_query := "cbr600rr".toList } := by decide
  have hcred : modelTermCredit
      (resultModelTokens
        { make := [], model := ['c', 'b', 'r', '6', '0', '0'], year := [],
          chrome_model := ['Y', 'T', 'Z', '7', 'S'],
          chrome_sku := [], yuasa_model := [], document := [] })
      (resultModelNormalized
        { make := [], model := ['c', 'b', 'r', '6', '0', '0'], year := [],
          chrome_model := ['Y', 'T', 'Z', '7', 'S'],
          chrome_sku := [], yuasa_model := [], document := [] })
      ['c', 'b', 'r', '6', '0', '0', 'r', 'r'] = 1/2 := by
    unfold modelTermCredit
    rw [if_neg (by decide), if_neg (by decide), if_neg (by decide), if_pos (by decide)]
  have hval : validateScore
      { make := [], model := "cbr600".toList, year := [], chrome_model := "YTZ7S".toList,
        chrome_sku := [], yuasa_model := [], document := [] }
      (extractSearchTerms ("cbr600rr".toList)) = 3/10 := by
    rw [hst]
    unfold validateScore modelScore makeScore yearScore
    norm_num
    rw [hcred]
    norm_num
  refine ⟨{ record := { make := [], model := "cbr600".toList, year := [],
                        chrome_model := "YTZ7S".toList, chrome_sku := [],
                        yuasa_model := [], document := [] }
            semantic_score := some (1/10)
            match_score := some (3/10)
            score := 11/50
            source := none }, ?_, by norm_num, by norm_num, by norm_num⟩
  unfold searchBatteryForVehicle semanticStage
  dsimp only
  simp only [List.filterMap_cons, List.filterMap_nil]
  rw [hval, if_pos (by norm_num : (3 : ℚ)/10 ≤ 3/10)]
  norm_num [List.mergeSort_singleton]

/-- C1 witness: the amended theorem applied to a concrete fallback run. -/
theorem battery_search_combined_score_bounds_witness :
    0 ≤ (fallbackCandidate
      { id := 1, vehicle_type := [], make := "mega honda".toList,
        model := "xyz123".toList, year := [], cc := [], chrome_model := "B1".toList,
        chrome_sku := [], yuasa_model := [] }).score ∧
    (fallbackCandidate
      { id := 1, vehicle_type := [], make := "mega honda".toList,
        model := "xyz123".toList, year := [], cc := [], chrome_model := "B1".toList,
        chrome_sku := [], yuasa_model := [] }).score ≤ 1 := by
  have hres : searchBatteryForVehicle ("honda xyz".toList) (.ok [])
      (.ok [{ id := 1, vehicle_type := [], make := "mega honda".toList,
              model := "xyz123".toList, year := [], cc := [], chrome_model := "B1".toList,
              chrome_sku := [], yuasa_model := [] }]) 5 =
      [fallbackCandidate
        { id := 1, vehicle_type := [], make := "mega honda".toList,
          model := "xyz123".toList, year := [], cc := [], chrome_model := "B1".toList,
          chrome_sku := [], yuasa_model := [] }] := by
    simp only [searchBatteryForVehicle, semanticStage, List.filterMap_nil,
      List.mergeSort_nil, List.take_nil, List.isEmpty_nil, if_true]
    rfl
  exact ((battery_search_combined_score_bounds ("honda xyz".toList) []
    (.ok [{ id := 1, vehicle_type := [], make := "mega honda".toList,
            model := "xyz123".toList, year := [], cc := [], chrome_model := "B1".toList,
            chrome_sku := [], yuasa_model := [] }]) 5
    (by intro p hp; exact absurd hp (List.not_mem_nil p)))
    (fallbackCandidate
      { id := 1, vehicle_type := [], make := "mega honda".toList,
        model := "xyz123".toList, year := [], cc := [], chrome_model := "B1".toList,
        chrome_sku := [], yuasa_model := [] })
    (by rw [hres]; exact List.mem_singleton_self _)).1

/-- C2 (confirmed): a query model term consisting entirely of digits receives
credit only via an exact token match against the normalized record model;
in particular the term "100" against model text "gl1000" contributes zero
credit. -/
theorem numeric_term_credit_exact_token_only :
    (∀ (toks : List Str) (rmn term : Str), isDigitStr term = true →
      modelTermCredit toks rmn term = if toks.contains term then 1 else 0) ∧
    modelTermCredit
      (resultModelTokens
        { make := [], model := "gl1000".toList, year := [], chrome_model := [],
          chrome_sku := [], yuasa_model := [], document := [] })
      (resultModelNormalized
        { make := [], model := "gl1000".toList, year := [], chrome_model := [],
          chrome_sku := [], yuasa_model := [], document := [] })
      ("100".toList) = 0 := by
  constructor
  · intro toks rmn term h
    unfold modelTermCredit
    rw [if_pos h]
  · decide

/-- C2 witness: the numeric-term rule applied at the concrete term "100". -/
theorem numeric_term_credit_exact_token_only_witness :
    isDigitStr ("100".toList) = true ∧
    modelTermCredit [ "100".toList ] [] ("100".toList) =
      (if List.contains [ "100".toList ] ("100".toList) then 1 else 0) :=
  ⟨by decide, numeric_term_credit_exact_token_only.1 _ _ _ (by decide)⟩

/-- C3 (code bug): the fallback resolver chains one `ilike` condition per
model term, and chained PostgREST filters conjoin, although the code's own
comment says it uses or-filters "to find any match".  A store row whose
model contains the model term "aa" (but not "bb") is filtered out when the
query is "aa bb", so the fallback returns nothing where the spec promises
exactly that one record with score 0.8. -/
theorem fallback_conjunctive_filter_drops_partial_match :
    searchBatteryForVehicle ("aa bb".toList) (.ok [])
      (.ok [{ id := 1, vehicle_type := [], make := [], model := "xxaaxx".toList,
              year := [], cc := [], chrome_model := "B1".toList, chrome_sku := [],
              yuasa_model := [] }]) 5 = [] ∧
    (extractSearchTerms ("aa bb".toList)).model_terms = ["aa".toList, "bb".toList] ∧
    isSubstr (lowerStr ("aa".toList))
      (lowerStr ("xxaaxx".toList)) = true ∧
    ("B1".toList : Str) ≠ [] := by
  refine ⟨?_, by decide, by decide, by decide⟩
  simp only [searchBatteryForVehicle, semanticStage, List.filterMap_nil,
    List.mergeSort_nil, List.take_nil, List.isEmpty_nil, if_true]
  decide

theorem contains_iff_mem {α : Type} [BEq α] [LawfulBEq α] (l : List α) (a : α) :
    l.contains a = true ↔ a ∈ l :=
  List.elem_iff

theorem uniqueBatteriesAux_sublist :
    ∀ (l : List CandidateMatch) (seen : List Str),
      (uniqueBatteriesAux l seen).Sublist l := by
  intro l
  induction l with
  | nil => intro seen; exact List.Sublist.refl _
  | cons r rest ih =>
    intro seen
    unfold uniqueBatteriesAux
    split
    · exact List.Sublist.cons₂ r (ih _)
    · exact List.Sublist.cons r (ih _)

theorem uniqueBatteriesAux_keys :
    ∀ (l : List CandidateMatch) (seen : List Str),
      ((uniqueBatteriesAux l seen).map fun c => c.record.chrome_model).Nodup ∧
      ∀ c ∈ uniqueBatteriesAux l seen, c.record.chrome_model ∉ seen := by
  intro l
  induction l with
  | nil => intro seen; exact ⟨List.nodup_nil, by intro c hc; cases hc⟩
  | cons r rest ih =>
    intro seen
    unfold uniqueBatteriesAux
    split
    · rename_i hcond
      obtain ⟨hnd, hni⟩ := ih (r.record.chrome_model :: seen)
      have hnmem : r.record.chrome_model ∉ seen := by
        simp only [Bool.and_eq_true, Bool.not_eq_true'] at hcond
        intro hmem
        rw [(contains_iff_mem seen _).mpr hmem] at hcond
        exact Bool.noConfusion hcond.2
      constructor
      · refine List.Nodup.cons ?_ hnd
        intro hmem
        obtain ⟨c, hc, hkey⟩ := List.mem_map.mp hmem
        exact (hni c hc) (hkey ▸ List.mem_cons_self _ _)
      · intro c hc
        rcases List.mem_cons.mp hc with rfl | hc2
        · exact hnmem
        · intro hmem
          exact (hni c hc2) (List.mem_cons_of_mem _ hmem)
    · obtain ⟨hnd, hni⟩ := ih seen
      exact ⟨hnd, hni⟩

theorem uniqueBatteriesAux_covers :
    ∀ (l : List CandidateMatch) (seen : List Str) (c : CandidateMatch),
      c ∈ l → c.record.chrome_model ≠ [] →
      c.record.chrome_model ∈ seen ∨
        ∃ c' ∈ uniqueBatteriesAux l seen,
          c'.record.chrome_model = c.record.chrome_model := by
  intro l
  induction l with
  | nil => intro seen c hc; cases hc
  | cons r rest ih =>
    intro seen c hc hne
    unfold uniqueBatteriesAux
    rcases List.mem_cons.mp hc with rfl | hc2
    · by_cases hcond :
        (!c.record.chrome_model.isEmpty && !seen.contains c.record.chrome_model) = true
      · rw [if_pos hcond]
        exact Or.inr ⟨c, List.mem_cons_self _ _, rfl⟩
      · rw [if_neg hcond]
        have : c.record.chrome_model ∈ seen := by
          simp only [Bool.and_eq_true, Bool.not_eq_true', not_and] at hcond
          by_cases hie : c.record.chrome_model.isEmpty = false
          · have h2 := hcond hie
            have h3 : seen.contains c.record.chrome_model = true := by
              cases hb : seen.contains c.record.chrome_model
              · exact absurd hb h2
              · rfl
            exact (contains_iff_mem seen _).mp h3
          · exact absurd (List.isEmpty_iff.mp (by simpa using hie)) hne
        exact Or.inl this
    · by_cases hcond :
        (!r.record.chrome_model.isEmpty && !seen.contains r.record.chrome_model) = true
      · rw [if_pos hcond]
        rcases ih (r.record.chrome_model :: seen) c hc2 hne with h | ⟨c', hc', hk⟩
        · rcases List.mem_cons.mp h with hk | hmem
          · exact Or.inr ⟨r, List.mem_cons_self _ _, hk.symm⟩
          · exact Or.inl hmem
        · exact Or.inr ⟨c', List.mem_cons_of_mem _ hc', hk⟩
      · rw [if_neg hcond]
        rcases ih seen c hc2 hne with h | ⟨c', hc', hk⟩
        · exact Or.inl h
        · exact Or.inr ⟨c', hc', hk⟩

theorem uniqueBatteriesAux_first :
    ∀ (l₁ : List CandidateMatch) (c : CandidateMatch) (l₂ : List CandidateMatch)
      (seen : List Str), c.record.chrome_model ≠ [] →
      c.record.chrome_model ∉ seen →
      (∀ c' ∈ l₁, c'.record.chrome_model ≠ c.record.chrome_model) →
      c ∈ uniqueBatteriesAux (l₁ ++ c :: l₂) seen := by
  intro l₁
  induction l₁ with
  | nil =>
    intro c l₂ seen hne hns _
    rw [List.nil_append]
    unfold uniqueBatteriesAux
    rw [if_pos]
    · exact List.mem_cons_self _ _
    · simp only [Bool.and_eq_true, Bool.not_eq_true']
      refine ⟨by simpa [List.isEmpty_iff] using hne, ?_⟩
      cases hcont : seen.contains c.record.chrome_model
      · rfl
      · exact absurd ((contains_iff_mem seen _).mp hcont) hns
  | cons r rest ih =>
    intro c l₂ seen hne hns hfirst
    have hr : r.record.chrome_model ≠ c.record.chrome_model :=
      hfirst r (List.mem_cons_self _ _)
    have hrest : ∀ c' ∈ rest, c'.record.chrome_model ≠ c.record.chrome_model :=
      fun c' hc' => hfirst c' (List.mem_cons_of_mem _ hc')
    show c ∈ uniqueBatteriesAux (r :: (rest ++ c :: l₂)) seen
    unfold uniqueBatteriesAux
    split
    · exact List.mem_cons_of_mem _ (ih c l₂ _ hne (by
        intro hmem
        rcases List.mem_cons.mp hmem with hk | hmem2
        · exact hr hk.symm
        · exact hns hmem2) hrest)
    · exact ih c l₂ _ hne hns hrest

/-- C5 counterexample: two candidates whose battery identifiers differ only
in case both survive the aggregator's deduplication, while the
case-insensitive deduplication the claim describes keeps only the first;
so the code deduplicates by exact, not case-insensitive, comparison. -/
theorem battery_dedup_not_case_insensitive :
    (uniqueBatteries
      [{ record := { make := [], model := [], year := [], chrome_model := "YTZ7S".toList,
                     chrome_sku := [], yuasa_model := [], document := [] },
         semantic_score := none, match_score := none, score := 1, source := none },
       { record := { make := [], model := [], year := [], chrome_model := "ytz7s".toList,
                     chrome_sku := [], yuasa_model := [], document := [] },
         semantic_score := none, match_score := none, score := 0, source := none }]).map
      (fun c => c.record.chrome_model) = ["YTZ7S".toList, "ytz7s".toList] ∧
    (specDedupCI
      [{ record := { make := [], model := [], year := [], chrome_model := "YTZ7S".toList,
                     chrome_sku := [], yuasa_model := [], document := [] },
         semantic_score := none, match_score := none, score := 1, source := none },
       { record := { make := [], model := [], year := [], chrome_model := "ytz7s".toList,
                     chrome_sku := [], yuasa_model := [], document := [] },
         semantic_score := none, match_score := none, score := 0, source := none }]).map
      (fun c => c.record.chrome_model) = ["YTZ7S".toList] ∧
    lowerStr ("YTZ7S".toList) = lowerStr ("ytz7s".toList) := by
  refine ⟨?_, ?_, by decide⟩ <;> decide

/-- C5 (amended): the aggregator deduplicates by exact (case-sensitive)
battery identifier, dropping empty identifiers, keeping the first
occurrence of each identifier in input order (so the highest-scored one,
the input being sorted), and the primary recommendation is the first
surviving entry. -/
theorem battery_dedup_exact_first_occurrence (results : List CandidateMatch) :
    ((uniqueBatteries results).map fun c => c.record.chrome_model).Nodup ∧
    (uniqueBatteries results).Sublist results ∧
    (∀ c ∈ results, c.record.chrome_model ≠ [] →
      ∃ c' ∈ uniqueBatteries results,
        c'.record.chrome_model = c.record.chrome_model) ∧
    (∀ (l₁ : List CandidateMatch) (c : CandidateMatch) (l₂ : List CandidateMatch),
      results = l₁ ++ c :: l₂ → c.record.chrome_model ≠ [] →
      (∀ c' ∈ l₁, c'.record.chrome_model ≠ c.record.chrome_model) →
      c ∈ uniqueBatteries results) ∧
    primaryRecommendation results = (uniqueBatteries results).head? := by
  refine ⟨(uniqueBatteriesAux_keys results []).1, uniqueBatteriesAux_sublist results [], ?_, ?_, rfl⟩
  · intro c hc hne
    rcases uniqueBatteriesAux_covers results [] c hc hne with h | h
    · cases h
    · exact h
  · intro l₁ c l₂ hres hne hfirst
    subst hres
    exact uniqueBatteriesAux_first l₁ c l₂ [] hne (by intro h; cases h) hfirst

/-- C5 witness: the amended theorem applied to a concrete two-element list. -/
theorem battery_dedup_exact_first_occurrence_witness :
    ∃ c' ∈ uniqueBatteries
      [{ record := { make := [], model := [], year := [], chrome_model := "B1".toList,
                     chrome_sku := [], yuasa_model := [], document := [] },
         semantic_score := none, match_score := none, score := 1, source := none }],
      c'.record.chrome_model =
        ({ record := { make := [], model := [], year := [], chrome_model := "B1".toList,
                       chrome_sku := [], yuasa_model := [], document := [] },
           semantic_score := none, match_score := none, score := 1,
           source := none } : CandidateMatch).record.chrome_model :=
  (battery_dedup_exact_first_occurrence _).2.2.1 _ (List.mem_singleton_self _) (by decide)

theorem rowMatchesFilter_iff (sl : List Str) (m y : Option Str) (row : FallbackRow) :
    rowMatchesFilter sl m y row = true ↔
      ((∀ t ∈ sl, 2 ≤ t.length → isSubstr (lowerStr t) (lowerStr row.model) = true) ∧
       (∀ mk, m = some mk → isSubstr (lowerStr mk) (lowerStr row.make) = true) ∧
       (∀ yr, y = some yr → row.year = yr)) := by
  unfold rowMatchesFilter
  simp only [Bool.and_eq_true, List.all_eq_true]
  constructor
  · rintro ⟨⟨hall, hmk⟩, hyr⟩
    refine ⟨?_, ?_, ?_⟩
    · intro t ht hlen
      have := hall t ht
      rwa [if_pos hlen] at this
    · intro mk hmk2
      subst hmk2
      simpa using hmk
    · intro yr hyr2
      subst hyr2
      simpa using hyr
  · rintro ⟨h1, h2, h3⟩
    refine ⟨⟨?_, ?_⟩, ?_⟩
    · intro t ht
      by_cases hlen : 2 ≤ t.length
      · rw [if_pos hlen]; exact h1 t ht hlen
      · rw [if_neg hlen]
    · cases m with
      | none => rfl
      | some mk => exact h2 mk rfl
    · cases y with
      | none => rfl
      | some yr => simpa using h3 yr rfl

/-- C6 counterexample: on query "honda xyz" (make = "honda"), a store row
with make "mega honda" — which contains but does not equal the query make —
passes the fallback filter and is returned, so the make narrowing is
case-insensitive containment, not exact equality. -/
theorem fallback_make_filter_not_exact :
    (extractSearchTerms ("honda xyz".toList)).make = some ("honda".toList) ∧
    rowMatchesFilter (fallbackSearchList (extractSearchTerms ("honda xyz".toList)))
      (extractSearchTerms ("honda xyz".toList)).make
      (extractSearchTerms ("honda xyz".toList)).year
      { id := 1, vehicle_type := [], make := "mega honda".toList,
        model := "xyz123".toList, year := [], cc := [], chrome_model := "B1".toList,
        chrome_sku := [], yuasa_model := [] } = true ∧
    lowerStr ("mega honda".toList) ≠ lowerStr ("honda".toList) ∧
    (supabaseFallbackSearch (extractSearchTerms ("honda xyz".toList))
      (.ok [{ id := 1, vehicle_type := [], make := "mega honda".toList,
              model := "xyz123".toList, year := [], cc := [], chrome_model := "B1".toList,
              chrome_sku := [], yuasa_model := [] }]) 5).length = 1 := by
  refine ⟨by decide, by decide, by decide, by decide⟩

/-- C6 (amended): when the normalized query has a make, the fallback
resolver narrows to rows whose make contains the query make
(case-insensitively) — not exact equality; when it has a year, it narrows
to rows whose year exactly equals the query year.  Every candidate the
fallback returns comes from a row satisfying these filters (plus the
per-term model containment filters). -/
theorem fallback_filter_make_contains_year_exact (st : SearchTerms)
    (rows : List FallbackRow) (k : Nat) (c : CandidateMatch)
    (hc : c ∈ supabaseFallbackSearch st (.ok rows) k) :
    ∃ row ∈ rows, c = fallbackCandidate row ∧
      (∀ mk, st.make = some mk → isSubstr (lowerStr mk) (lowerStr row.make) = true) ∧
      (∀ yr, st.year = some yr → row.year = yr) ∧
      (∀ t ∈ fallbackSearchList st, 2 ≤ t.length →
        isSubstr (lowerStr t) (lowerStr row.model) = true) := by
  obtain ⟨row, hrow, hcrow, hfil⟩ := mem_supabaseFallbackSearch st rows k c hc
  obtain ⟨h1, h2, h3⟩ := (rowMatchesFilter_iff _ _ _ _).mp hfil
  exact ⟨row, hrow, hcrow, h2, h3, h1⟩

/-- C6 witness: applying the amended theorem on the concrete "honda xyz"
run yields the containment fact for the returned row's make. -/
theorem fallback_filter_make_contains_year_exact_witness :
    isSubstr (lowerStr ("honda".toList)) (lowerStr ("mega honda".toList)) = true := by
  have hmem : fallbackCandidate
      { id := 1, vehicle_type := [], make := "mega honda".toList,
        model := "xyz123".toList, year := [], cc := [], chrome_model := "B1".toList,
        chrome_sku := [], yuasa_model := [] } ∈
      supabaseFallbackSearch (extractSearchTerms ("honda xyz".toList))
        (.ok [{ id := 1, vehicle_type := [], make := "mega honda".toList,
                model := "xyz123".toList, year := [], cc := [], chrome_model := "B1".toList,
                chrome_sku := [], yuasa_model := [] }]) 5 := by
    show _ ∈ _
    rw [show supabaseFallbackSearch (extractSearchTerms ("honda xyz".toList))
        (.ok [{ id := 1, vehicle_type := [], make := "mega honda".toList,
                model := "xyz123".toList, year := [], cc := [], chrome_model := "B1".toList,
                chrome_sku := [], yuasa_model := [] }]) 5 =
        [fallbackCandidate
          { id := 1, vehicle_type := [], make := "mega honda".toList,
            model := "xyz123".toList, year := [], cc := [], chrome_model := "B1".toList,
            chrome_sku := [], yuasa_model := [] }] from rfl]
    exact List.mem_singleton_self _
  obtain ⟨row, hrow, hcrow, h2, h3, h1⟩ :=
    fallback_filter_make_contains_year_exact _ _ _ _ hmem
  rcases List.mem_singleton.mp hrow with rfl
  exact h2 _ (by decide)

/-- C7 (confirmed): the resolution operations are total functions into
lists (no exception escapes, by construction of the embedding), and every
collaborator failure degrades to an empty result for its sub-step: an
embedding/vector-index error makes either search return `[]`; a relational
store error, or an empty store result, makes the fallback resolver return
`[]`; and a store error inside `search_battery_for_vehicle` yields `[]`
exactly when the fallback would have been consulted — otherwise the store
plays no part in the result. -/
theorem resolution_error_isolation :
    (∀ (q : Str) (store : Except Unit (List FallbackRow)) (k : Nat) (e : Unit),
      searchBatteryForVehicle q (.error e) store k = []) ∧
    (∀ (st : SearchTerms) (k : Nat) (e : Unit),
      supabaseFallbackSearch st (.error e) k = []) ∧
    (∀ (st : SearchTerms) (k : Nat), supabaseFallbackSearch st (.ok []) k = []) ∧
    (∀ (bm : Str) (k : Nat) (e : Unit), searchVehiclesForBattery bm (.error e) k = []) ∧
    (∀ (q : Str) (pts : List ScoredPoint) (k : Nat) (e : Unit),
      searchBatteryForVehicle q (.ok pts) (.error e) k = [] ∨
      ∀ store, searchBatteryForVehicle q (.ok pts) store k =
        searchBatteryForVehicle q (.ok pts) (.error e) k) := by
  refine ⟨fun q store k e => rfl, fun st k e => supabaseFallbackSearch_error st e k,
    supabaseFallbackSearch_empty_store, fun bm k e => rfl, ?_⟩
  intro q pts k e
  by_cases h : (semanticStage q pts k).isEmpty = true
  · left
    show (if (semanticStage q pts k).isEmpty = true then
        supabaseFallbackSearch (extractSearchTerms q) (.error e) k
      else semanticStage q pts k) = []
    rw [if_pos h, supabaseFallbackSearch_error]
  · right
    intro store
    show (if (semanticStage q pts k).isEmpty = true then
        supabaseFallbackSearch (extractSearchTerms q) store k
      else semanticStage q pts k) =
      (if (semanticStage q pts k).isEmpty = true then
        supabaseFallbackSearch (extractSearchTerms q) (.error e) k
      else semanticStage q pts k)
    simp only [if_neg h]

/-- C7 witness: a vector-index error on both search directions and a store
error on the fallback yield empty results at concrete inputs. -/
theorem resolution_error_isolation_witness :
    searchBatteryForVehicle ("2020 Honda CBR600".toList) (.error ()) (.ok []) 5 = [] ∧
    searchVehiclesForBattery ("YTZ7S".toList) (.error ()) 20 = [] ∧
    supabaseFallbackSearch (extractSearchTerms ("2020 Honda CBR600".toList))
      (.error ()) 5 = [] :=
  ⟨resolution_error_isolation.1 _ _ 5 (),
   resolution_error_isolation.2.2.2.1 _ 20 (),
   resolution_error_isolation.2.1 _ 5 ()⟩

theorem makeModelSplit_none :
    ∀ sig : List Str, (makeModelSplit sig).1 = none → (makeModelSplit sig).2 = sig := by
  intro sig
  unfold makeModelSplit
  split
  · intro _; rfl
  · split
    · intro h; simp at h
    · split
      · split
        · intro h; simp at h
        · intro _; rfl
      · intro _; rfl

theorem extract_make_none_model_eq_all (q : Str) :
    (extractSearchTerms q).make = none →
      (extractSearchTerms q).model_terms = (extractSearchTerms q).all_terms := by
  intro h
  unfold extractSearchTerms at *
  dsimp only at *
  exact makeModelSplit_none _ h

theorem extract_model_terms_empty_all_empty (q : Str) :
    (extractSearchTerms q).model_terms = [] → (extractSearchTerms q).make = none →
      (extractSearchTerms q).all_terms = [] := by
  intro hmt hmk
  have h := extract_make_none_model_eq_all q hmk
  rw [← h, hmt]

/-- C9 (confirmed): on every Normalizer output, `make = None` implies
`model_terms = all_terms`; hence the Validator's all-terms fallback branch
(which requires empty `model_terms`, no make and nonempty `all_terms`)
never fires, and the validation score equals the branch-free score for
every query the Normalizer can produce. -/
theorem normalizer_make_none_fallback_inert :
    (∀ q : Str, (extractSearchTerms q).make = none →
      (extractSearchTerms q).model_terms = (extractSearchTerms q).all_terms) ∧
    (∀ q : Str, (extractSearchTerms q).model_terms = [] →
      (extractSearchTerms q).make = none → (extractSearchTerms q).all_terms = []) ∧
    (∀ (q : Str) (r : FitmentRecord),
      validateScore r (extractSearchTerms q) =
        validateScoreNoFallbackBranch r (extractSearchTerms q)) := by
  refine ⟨extract_make_none_model_eq_all, extract_model_terms_empty_all_empty, ?_⟩
  intro q r
  unfold validateScore validateScoreNoFallbackBranch
  dsimp only
  by_cases h : ((extractSearchTerms q).model_terms.isEmpty &&
      (extractSearchTerms q).make.isNone) = true
  · rw [if_pos h]
    simp only [Bool.and_eq_true] at h
    have hmt : (extractSearchTerms q).model_terms = [] := List.isEmpty_iff.mp h.1
    have hmk : (extractSearchTerms q).make = none := Option.isNone_iff_eq_none.mp h.2
    have hat := extract_model_terms_empty_all_empty q hmt hmk
    rw [if_neg]
    simp [hat]
  · rw [if_neg h]

/-- C9 witness: the structural facts at the concrete query "cbr600rr" and
the branch-free evaluation at a concrete record. -/
theorem normalizer_make_none_fallback_inert_witness :
    (extractSearchTerms ("cbr600rr".toList)).model_terms =
      (extractSearchTerms ("cbr600rr".toList)).all_terms ∧
    validateScore
      { make := [], model := [], year := [], chrome_model := [], chrome_sku := [],
        yuasa_model := [], document := [] } (extractSearchTerms ("cbr600rr".toList)) =
    validateScoreNoFallbackBranch
      { make := [], model := [], year := [], chrome_model := [], chrome_sku := [],
        yuasa_model := [], document := [] } (extractSearchTerms ("cbr600rr".toList)) :=
  ⟨normalizer_make_none_fallback_inert.1 _ (by decide),
   normalizer_make_none_fallback_inert.2.2 _ _⟩

theorem extract_all_empty_parts (q : Str)
    (h : (extractSearchTerms q).all_terms = []) :
    (extractSearchTerms q).model_terms = [] ∧ (extractSearchTerms q).make = none := by
  unfold extractSearchTerms at *
  dsimp only at *
  rw [h]
  exact ⟨rfl, rfl⟩

/-- C10 (confirmed): whenever the query has no significant tokens (empty
string, a bare year such as "2020", or only stop-listed vehicle-type
words), every candidate's validation score is at most 0.15 < 0.3, so the
semantic stage validates nothing, and the fallback's search-term list is
empty, so `search_battery_for_vehicle` returns the empty list. -/
theorem empty_query_returns_nothing (q : Str)
    (h : (extractSearchTerms q).all_terms = [])
    (pts : List ScoredPoint) (store : Except Unit (List FallbackRow)) (k : Nat) :
    searchBatteryForVehicle q (.ok pts) store k = [] ∧
    ∀ r : FitmentRecord, validateScore r (extractSearchTerms q) ≤ 3/20 := by
  obtain ⟨hmt, hmk⟩ := extract_all_empty_parts q h
  have hbound : ∀ r : FitmentRecord, validateScore r (extractSearchTerms q) ≤ 3/20 := by
    intro r
    unfold validateScore
    dsimp only
    rw [if_pos (by simp [hmt, hmk]), if_neg (by simp [h])]
    have h1 : modelScore r (extractSearchTerms q) = 0 := by
      unfold modelScore
      rw [if_pos (by simp [hmt])]
    have h2 : makeScore r (extractSearchTerms q) = 0 := by
      unfold makeScore
      rw [hmk]
    have h3 := yearScore_le r (extractSearchTerms q)
    linarith
  refine ⟨?_, hbound⟩
  have hstage : semanticStage q pts k = [] := by
    unfold semanticStage
    dsimp only
    have hfm : (pts.filterMap fun p =>
        if (3 : ℚ)/10 ≤ validateScore p.payload (extractSearchTerms q) then
          some { record := p.payload
                 semantic_score := some p.score
                 match_score := some (validateScore p.payload (extractSearchTerms q))
                 score := p.score * (2/5) +
                   validateScore p.payload (extractSearchTerms q) * (3/5)
                 source := none }
        else (none : Option CandidateMatch)) = [] := by
      rw [List.filterMap_eq_nil_iff]
      intro p hp
      rw [if_neg]
      intro hge
      have := hbound p.payload
      linarith
    rw [hfm, List.mergeSort_nil, List.take_nil]
  show (if (semanticStage q pts k).isEmpty = true then
      supabaseFallbackSearch (extractSearchTerms q) store k
    else semanticStage q pts k) = []
  rw [hstage]
  simp only [List.isEmpty_nil, if_true]
  unfold supabaseFallbackSearch
  rw [if_pos (by simp [fallbackSearchList, hmt, h])]

/-- C10 witness: the bare-year query "2020" yields the empty result even
with a nonempty index and store. -/
theorem empty_query_returns_nothing_witness :
    searchBatteryForVehicle ("2020".toList)
      (.ok [{ payload := { make := "honda".toList, model := "cbr600".toList,
                           year := "2020".toList, chrome_model := "YTZ7S".toList,
                           chrome_sku := [], yuasa_model := [], document := [] },
              score := 1 }])
      (.ok [{ id := 1, vehicle_type := [], make := "honda".toList,
              model := "cbr600".toList, year := "2020".toList, cc := [],
              chrome_model := "YTZ7S".toList, chrome_sku := [],
              yuasa_model := [] }]) 5 = [] :=
  (empty_query_returns_nothing ("2020".toList) (by decide) _ _ _).1

theorem stripDashes_no_dash (s : Str) : ∀ c ∈ stripDashes s, c ≠ '-' := by
  intro c hc
  have := List.mem_filter.mp hc
  simpa using this.2

theorem stripDashes_eq_self (s : Str) (h : ∀ c ∈ s, c ≠ '-') :
    stripDashes s = s :=
  List.filter_eq_self.mpr (by intro c hc; simpa using h c hc)

theorem removeBS_cons_ne (c : Char) (rest : Str) (hc : c ≠ '-') :
    removeBS (c :: rest) = c :: removeBS rest := by
  rw [removeBS.eq_def]
  split
  · rename_i rest' heq
    rw [List.cons.injEq] at heq
    exact absurd heq.1 hc
  · rename_i c' rest' heq
    rw [List.cons.injEq] at heq
    rw [heq.1, heq.2]
  · rename_i heq
    exact absurd heq (by simp)

theorem removeBS_eq_self (s : Str) (h : ∀ c ∈ s, c ≠ '-') :
    removeBS s = s := by
  induction s with
  | nil => rfl
  | cons c rest ih =>
    rw [removeBS_cons_ne c rest (h c (List.mem_cons_self _ _))]
    rw [ih fun x hx => h x (List.mem_cons_of_mem _ hx)]

theorem removeBS_append_suffix (w : Str) (h : ∀ c ∈ w, c ≠ '-') :
    removeBS (w ++ bsSuffix) = w := by
  induction w with
  | nil => rfl
  | cons c rest ih =>
    rw [List.cons_append, removeBS_cons_ne c _ (h c (List.mem_cons_self _ _))]
    rw [ih fun x hx => h x (List.mem_cons_of_mem _ hx)]

theorem batteryVariants_eq (bm : Str) :
    batteryVariants bm =
      [(normalizeBatteryModel bm).1, (normalizeBatteryModel bm).2,
       stripDashes (normalizeBatteryModel bm).1] := rfl

theorem stored_norm_eq_without (bm : Str)
    (hnice : ∀ c ∈ (normalizeBatteryModel bm).1, c ≠ '-') :
    ∀ v ∈ batteryVariants bm,
      stripDashes (removeBS v) = (normalizeBatteryModel bm).1 := by
  have hW : stripDashes (removeBS (normalizeBatteryModel bm).1) =
      (normalizeBatteryModel bm).1 := by
    rw [removeBS_eq_self _ hnice, stripDashes_eq_self _ hnice]
  have hWB : stripDashes (removeBS (normalizeBatteryModel bm).2) =
      (normalizeBatteryModel bm).1 := by
    unfold normalizeBatteryModel at hnice ⊢
    dsimp only at hnice ⊢
    by_cases hbs : bsSuffix.isSuffixOf (stripStr (upperStr bm)) = true
    · simp only [if_pos hbs] at hnice ⊢
      exact stripDashes_eq_self _ hnice
    · simp only [if_neg hbs] at hnice ⊢
      rw [removeBS_append_suffix _ (stripDashes_no_dash _)]
      exact stripDashes_eq_self _ (stripDashes_no_dash _)
  intro v hv
  rw [batteryVariants_eq] at hv
  rcases List.mem_cons.mp hv with rfl | hv2
  · exact hW
  · rcases List.mem_cons.mp hv2 with rfl | hv3
    · exact hWB
    · rcases List.mem_cons.mp hv3 with rfl | hv4
      · rw [stripDashes_eq_self _ hnice]
        exact hW
      · cases hv4

/-- C4 (amended): when the without-suffix canonical spelling of the queried
identifier contains no separator (every ordinary battery identifier), a
retrieved candidate is accepted ONLY IF its identically normalized stored
identifier equals, contains, or is contained by one of the three canonical
spellings — the converse fails (see the counterexample); in particular,
querying "YTZ7S" accepts a record stored as "YTZ7S-BS". -/
theorem vehicle_accept_only_if_spec :
    (∀ (bm chrome_raw : Str), (∀ c ∈ (normalizeBatteryModel bm).1, c ≠ '-') →
      vehicleAccept bm chrome_raw = true → specVehicleAccept bm chrome_raw = true) ∧
    vehicleAccept ("YTZ7S".toList) ("YTZ7S-BS".toList) = true := by
  refine ⟨?_, by decide⟩
  intro bm chrome_raw hnice hacc
  unfold vehicleAccept at hacc
  dsimp only at hacc
  unfold specVehicleAccept
  dsimp only
  rw [List.any_eq_true]
  have hwmem : (normalizeBatteryModel bm).1 ∈ batteryVariants bm := by
    rw [batteryVariants_eq]
    exact List.mem_cons_self _ _
  simp only [Bool.or_eq_true] at hacc
  rcases hacc with ((((hA | hB) | hC) | hD) | hE)
  · -- stored_normalized itself is one of the variants
    refine ⟨_, (contains_iff_mem _ _).mp hA, ?_⟩
    simp
  · -- the raw uppercased identifier is one of the variants
    have hchrome := (contains_iff_mem _ _).mp hB
    have hsn := stored_norm_eq_without bm hnice _ hchrome
    refine ⟨_, hwmem, ?_⟩
    simp only [Bool.or_eq_true]
    exact Or.inl (Or.inl (by rw [beq_iff_eq]; exact hsn))
  · -- equality with the without-suffix spelling
    refine ⟨_, hwmem, ?_⟩
    simp only [Bool.or_eq_true]
    exact Or.inl (Or.inl (by rw [beq_iff_eq]; exact (beq_iff_eq.mp hC).symm))
  · -- the without-suffix spelling occurs inside the stored identifier
    refine ⟨_, hwmem, ?_⟩
    simp only [Bool.or_eq_true]
    exact Or.inl (Or.inr hD)
  · -- the stored identifier occurs inside the without-suffix spelling
    refine ⟨_, hwmem, ?_⟩
    simp only [Bool.or_eq_true]
    exact Or.inr hE

/-- C4 counterexample: for the query "YTZ7S" and a record stored as "BS",
the spec's acceptance condition holds (the normalized stored identifier
"BS" is contained in the canonical spelling "YTZ7S-BS"), yet the code
rejects the record: the code only tests containment against the
without-suffix spelling, so the claimed "if and only if" fails. -/
theorem vehicle_accept_not_iff_spec :
    specVehicleAccept ("YTZ7S".toList) ("BS".toList) = true ∧
    vehicleAccept ("YTZ7S".toList) ("BS".toList) = false := by
  exact ⟨by decide, by decide⟩

/-- C4 witness: the amended theorem applied at the scenario-B instance. -/
theorem vehicle_accept_only_if_spec_witness :
    specVehicleAccept ("YTZ7S".toList) ("YTZ7S-BS".toList) = true :=
  vehicle_accept_only_if_spec.1 _ _ (by decide) (by decide)

theorem char_eq_of_toNat_eq {c d : Char} (h : c.toNat = d.toNat) : c = d :=
  Char.ext (UInt32.ext h)

theorem char_eq_iff_toNat_eq {c d : Char} : c = d ↔ c.toNat = d.toNat :=
  ⟨fun h => h ▸ rfl, char_eq_of_toNat_eq⟩

theorem isDigit_iff_toNat (c : Char) :
    c.isDigit = true ↔ 48 ≤ c.toNat ∧ c.toNat ≤ 57 := by
  simp only [Char.isDigit, Bool.and_eq_true, decide_eq_true_eq]
  exact Iff.rfl

theorem toLower_toNat (c : Char) :
    (Char.toLower c).toNat =
      if 65 ≤ c.toNat ∧ c.toNat ≤ 90 then c.toNat + 32 else c.toNat := by
  unfold Char.toLower
  split
  · rename_i h
    rw [if_pos (by exact h)]
    unfold Char.ofNat
    rw [dif_pos (Or.inl (by omega))]
    rfl
  · rename_i h
    rw [if_neg (by exact h)]

/-- Either `toLower` shifts an uppercase letter down by 32, or it is the
identity. -/
theorem toLower_cases (c : Char) :
    (65 ≤ c.toNat ∧ c.toNat ≤ 90 ∧ (Char.toLower c).toNat = c.toNat + 32) ∨
      Char.toLower c = c := by
  have h := toLower_toNat c
  by_cases hr : 65 ≤ c.toNat ∧ c.toNat ≤ 90
  · rw [if_pos hr] at h
    exact Or.inl ⟨hr.1, hr.2, h⟩
  · rw [if_neg hr] at h
    exact Or.inr (char_eq_of_toNat_eq h)

theorem isWordChar_iff_toNat (c : Char) :
    isWordChar c = true ↔
      (48 ≤ c.toNat ∧ c.toNat ≤ 57) ∨ (65 ≤ c.toNat ∧ c.toNat ≤ 90) ∨
      (97 ≤ c.toNat ∧ c.toNat ≤ 122) ∨ c.toNat = 95 := by
  have h95 : ((c = '_') ↔ c.toNat = 95) := by
    rw [char_eq_iff_toNat_eq]
    exact Iff.rfl
  unfold isWordChar
  simp only [Char.isAlphanum, Char.isAlpha, Char.isUpper, Char.isLower, Char.isDigit,
    Bool.or_eq_true, Bool.and_eq_true, decide_eq_true_eq, Char.le_def, h95]
  constructor
  · intro h
    rcases h with ((⟨h1, h2⟩ | ⟨h1, h2⟩) | ⟨h1, h2⟩) | h
    · exact Or.inr (Or.inl ⟨by exact h1, by exact h2⟩)
    · exact Or.inr (Or.inr (Or.inl ⟨by exact h1, by exact h2⟩))
    · exact Or.inl ⟨by exact h1, by exact h2⟩
    · exact Or.inr (Or.inr (Or.inr h))
  · intro h
    rcases h with ⟨h1, h2⟩ | ⟨h1, h2⟩ | ⟨h1, h2⟩ | h
    · exact Or.inl (Or.inr ⟨by exact h1, by exact h2⟩)
    · exact Or.inl (Or.inl (Or.inl ⟨by exact h1, by exact h2⟩))
    · exact Or.inl (Or.inl (Or.inr ⟨by exact h1, by exact h2⟩))
    · exact Or.inr h

theorem toLower_eq_digit_iff (c d : Char) (hd : d.isDigit = true) :
    (Char.toLower c = d) ↔ c = d := by
  rcases toLower_cases c with ⟨h1, h2, h3⟩ | heq
  · have hd2 := (isDigit_iff_toNat d).mp hd
    rw [char_eq_iff_toNat_eq, char_eq_iff_toNat_eq (c := c)]
    omega
  · rw [heq]

theorem isDigit_toLower (c : Char) : (Char.toLower c).isDigit = c.isDigit := by
  rcases toLower_cases c with ⟨h1, h2, h3⟩ | heq
  · have ha := isDigit_iff_toNat (Char.toLower c)
    have hb := isDigit_iff_toNat c
    have hlf : (Char.toLower c).isDigit = false := by
      cases hx : (Char.toLower c).isDigit
      · rfl
      · have := ha.mp hx; omega
    have hcf : c.isDigit = false := by
      cases hx : c.isDigit
      · rfl
      · have := hb.mp hx; omega
    rw [hlf, hcf]
  · rw [heq]

theorem isWordChar_toLower (c : Char) : isWordChar (Char.toLower c) = isWordChar c := by
  rcases toLower_cases c with ⟨h1, h2, h3⟩ | heq
  · have h4 := (isWordChar_iff_toNat c).mpr (Or.inr (Or.inl ⟨h1, h2⟩))
    have h5 := (isWordChar_iff_toNat (Char.toLower c)).mpr
      (Or.inr (Or.inr (Or.inl ⟨by omega, by omega⟩)))
    rw [h4, h5]
  · rw [heq]

theorem isYearStart_toLower (a b : Char) :
    isYearStart (Char.toLower a) (Char.toLower b) = isYearStart a b := by
  unfold isYearStart
  rw [decide_eq_decide.mpr (toLower_eq_digit_iff a '1' (by decide)),
    decide_eq_decide.mpr (toLower_eq_digit_iff b '9' (by decide)),
    decide_eq_decide.mpr (toLower_eq_digit_iff a '2' (by decide)),
    decide_eq_decide.mpr (toLower_eq_digit_iff b '0' (by decide))]

theorem headNotWord_lower (l : Str) : headNotWord (lowerStr l) = headNotWord l := by
  cases l with
  | nil => rfl
  | cons c t =>
    show (!isWordChar (Char.toLower c)) = (!isWordChar c)
    rw [isWordChar_toLower]

theorem yearSearch_lower (s : Str) :
    ∀ pw, (yearSearch pw (lowerStr s)).isSome = (yearSearch pw s).isSome := by
  induction s with
  | nil => intro pw; rfl
  | cons a s' ih =>
    intro pw
    rcases s' with _ | ⟨b, s''⟩
    · rfl
    · rcases s'' with _ | ⟨c, s'''⟩
      · rfl
      · rcases s''' with _ | ⟨d, rest⟩
        · rfl
        · show (yearSearch pw (Char.toLower a :: Char.toLower b :: Char.toLower c ::
            Char.toLower d :: lowerStr rest)).isSome =
            (yearSearch pw (a :: b :: c :: d :: rest)).isSome
          simp only [yearSearch]
          rw [isYearStart_toLower, isDigit_toLower, isDigit_toLower, headNotWord_lower]
          by_cases hcond : (!pw && isYearStart a b && c.isDigit && d.isDigit &&
              headNotWord rest) = true
          · rw [if_pos hcond, if_pos hcond]
            rfl
          · rw [if_neg hcond, if_neg hcond, isWordChar_toLower]
            exact ih (isWordChar a)

theorem space_char_facts (c : Char) (h : isSpaceChar c = true) :
    isWordChar c = false ∧ c.isDigit = false ∧
      (∀ b, isYearStart c b = false) ∧ (∀ a, isYearStart a c = false) := by
  unfold isSpaceChar at h
  simp only [Bool.or_eq_true, decide_eq_true_eq] at h
  rcases h with ((((h | h) | h) | h) | h) | h <;> subst h <;>
    exact ⟨by decide, by decide,
      fun b => by simp [isYearStart],
      fun a => by simp [isYearStart]⟩

theorem yearSearch_short (s : Str) (h : s.length < 4) (pw : Bool) :
    yearSearch pw s = none := by
  rcases s with _ | ⟨a, s'⟩
  · rfl
  · rcases s' with _ | ⟨b, s''⟩
    · rfl
    · rcases s'' with _ | ⟨c, s'''⟩
      · rfl
      · rcases s''' with _ | ⟨d, rest⟩
        · rfl
        · simp at h
          omega

theorem headNotWord_append_space (rest trail : Str)
    (htrail : ∀ c ∈ trail, isSpaceChar c = true) :
    headNotWord (rest ++ trail) = headNotWord rest := by
  cases rest with
  | nil =>
    cases trail with
    | nil => rfl
    | cons e t =>
      show (!isWordChar e) = true
      rw [(space_char_facts e (htrail e (List.mem_cons_self _ _))).1]
      rfl
  | cons f rest' => rfl

theorem yearSearch_spacefill_none :
    ∀ (n : Nat) (s' trail : Str), (s' ++ trail).length ≤ n → s'.length ≤ 3 →
      (∀ c ∈ trail, isSpaceChar c = true) → ∀ pw,
      yearSearch pw (s' ++ trail) = none := by
  intro n
  induction n with
  | zero =>
    intro s' trail hlen _ _ pw
    have : s' ++ trail = [] := List.length_eq_zero.mp (Nat.le_zero.mp hlen)
    rw [this]
    rfl
  | succ n ih =>
    intro s' trail hlen hs htrail pw
    by_cases hshort : (s' ++ trail).length < 4
    · exact yearSearch_short _ hshort pw
    · -- the appended list has at least four characters
      rcases hl : s' ++ trail with _ | ⟨a, _ | ⟨b, _ | ⟨c, _ | ⟨d, rest⟩⟩⟩⟩ <;>
        rw [hl] at hshort <;>
        [simp at hshort; simp at hshort; simp at hshort; simp at hshort; skip]
      rw [hl] at hlen
      -- identify the tail as a shorter instance of the same shape
      have htail : ∃ s₂ trail₂, b :: c :: d :: rest = s₂ ++ trail₂ ∧ s₂.length ≤ 3 ∧
          (∀ x ∈ trail₂, isSpaceChar x = true) := by
        rcases s' with _ | ⟨x, s₁⟩
        · refine ⟨[], trail.tail, ?_, by simp, ?_⟩
          · rw [List.nil_append] at hl
            rw [hl]
            rfl
          · intro x hx
            exact htrail x (List.mem_of_mem_tail hx)
        · rw [List.cons_append, List.cons.injEq] at hl
          refine ⟨s₁, trail, hl.2.symm ▸ rfl, ?_, htrail⟩
          have : s₁.length + 1 ≤ 3 := by simpa using hs
          omega
      obtain ⟨s₂, trail₂, heq2, hs2, htrail2⟩ := htail
      -- the condition at the head is false: one of the year characters is a space
      have hcondfalse : (!pw && isYearStart a b && c.isDigit && d.isDigit &&
          headNotWord rest) = false := by
        rcases s' with _ | ⟨x1, _ | ⟨x2, _ | ⟨x3, _ | ⟨x4, s₄⟩⟩⟩⟩
        · -- a is a space
          simp only [List.nil_append] at hl
          have ha : a ∈ trail := by rw [hl]; exact List.mem_cons_self _ _
          rw [(space_char_facts a (htrail a ha)).2.2.1 b]
          simp
        · -- b is a space
          simp only [List.cons_append, List.nil_append, List.cons.injEq] at hl
          have hb : b ∈ trail := by rw [hl.2]; exact List.mem_cons_self _ _
          rw [(space_char_facts b (htrail b hb)).2.2.2 a]
          simp
        · -- c is a space
          simp only [List.cons_append, List.nil_append, List.cons.injEq] at hl
          have hc : c ∈ trail := by rw [hl.2.2]; exact List.mem_cons_self _ _
          rw [(space_char_facts c (htrail c hc)).2.1]
          simp
        · -- d is a space
          simp only [List.cons_append, List.nil_append, List.cons.injEq] at hl
          have hd : d ∈ trail := by rw [hl.2.2.2]; exact List.mem_cons_self _ _
          rw [(space_char_facts d (htrail d hd)).2.1]
          simp
        · simp at hs
      show yearSearch pw (a :: b :: c :: d :: rest) = none
      simp only [yearSearch]
      rw [if_neg (by rw [hcondfalse]; exact Bool.false_ne_true)]
      rw [heq2]
      refine ih s₂ trail₂ ?_ hs2 htrail2 _
      have h3 : (s₂ ++ trail₂).length = (b :: c :: d :: rest).length := by rw [heq2]
      simp only [List.length_append, List.length_cons] at h3 hlen ⊢
      omega

theorem yearSearch_trailing_space (trail : Str)
    (htrail : ∀ c ∈ trail, isSpaceChar c = true) :
    ∀ (s : Str) (pw : Bool),
      (yearSearch pw (s ++ trail)).isSome = (yearSearch pw s).isSome := by
  intro s
  induction s with
  | nil =>
    intro pw
    have h0 := yearSearch_spacefill_none trail.length [] trail (by simp) (by simp) htrail pw
    simp only [List.nil_append] at h0 ⊢
    rw [h0]
    rfl
  | cons a t ih =>
    intro pw
    rcases t with _ | ⟨b, t2⟩
    · have h0 := yearSearch_spacefill_none ([a] ++ trail).length [a] trail (by simp)
        (by simp) htrail pw
      rw [yearSearch_short (a :: []) (by simp) pw]
      rw [show (a :: []) ++ trail = [a] ++ trail from rfl, h0]
    · rcases t2 with _ | ⟨c, t3⟩
      · have h0 := yearSearch_spacefill_none ([a, b] ++ trail).length [a, b] trail
          (by simp) (by simp) htrail pw
        rw [yearSearch_short (a :: b :: []) (by simp) pw]
        rw [show (a :: b :: []) ++ trail = [a, b] ++ trail from rfl, h0]
      · rcases t3 with _ | ⟨d, rest⟩
        · have h0 := yearSearch_spacefill_none ([a, b, c] ++ trail).length [a, b, c]
            trail (by simp) (by simp) htrail pw
          rw [yearSearch_short (a :: b :: c :: []) (by simp) pw]
          rw [show (a :: b :: c :: []) ++ trail = [a, b, c] ++ trail from rfl, h0]
        · show (yearSearch pw (a :: b :: c :: d :: (rest ++ trail))).isSome =
            (yearSearch pw (a :: b :: c :: d :: rest)).isSome
          simp only [yearSearch]
          rw [headNotWord_append_space rest trail htrail]
          by_cases hcond : (!pw && isYearStart a b && c.isDigit && d.isDigit &&
              headNotWord rest) = true
          · rw [if_pos hcond, if_pos hcond]
          · rw [if_neg hcond, if_neg hcond]
            exact ih (isWordChar a)

theorem yearSearch_leading_space (s : Str) :
    (yearSearch false (s.dropWhile isSpaceChar)).isSome = (yearSearch false s).isSome := by
  induction s with
  | nil => rfl
  | cons a t ih =>
    by_cases ha : isSpaceChar a = true
    · rw [List.dropWhile_cons_of_pos ha, ih]
      rcases t with _ | ⟨b, t2⟩
      · rfl
      · rcases t2 with _ | ⟨c, t3⟩
        · rfl
        · rcases t3 with _ | ⟨d, rest⟩
          · rfl
          · show (yearSearch false (b :: c :: d :: rest)).isSome =
              (yearSearch false (a :: b :: c :: d :: rest)).isSome
            obtain ⟨hw, _, hys, _⟩ := space_char_facts a ha
            conv_rhs => simp only [yearSearch]
            rw [if_neg (by rw [hys b]; simp), hw]
    · rw [List.dropWhile_cons_of_neg ha]

theorem yearSearch_strip (s : Str) :
    (yearSearch false (stripStr s)).isSome = (yearSearch false s).isSome := by
  have hsplit : s.dropWhile isSpaceChar = stripStr s ++
      ((s.dropWhile isSpaceChar).reverse.takeWhile isSpaceChar).reverse := by
    unfold stripStr
    conv_lhs => rw [← List.reverse_reverse (s.dropWhile isSpaceChar)]
    rw [← List.reverse_append, List.takeWhile_append_dropWhile]
  have htrail : ∀ c ∈ ((s.dropWhile isSpaceChar).reverse.takeWhile isSpaceChar).reverse,
      isSpaceChar c = true := by
    intro c hc
    exact List.mem_takeWhile_imp (List.mem_reverse.mp hc)
  calc (yearSearch false (stripStr s)).isSome
      = (yearSearch false (stripStr s ++
          ((s.dropWhile isSpaceChar).reverse.takeWhile isSpaceChar).reverse)).isSome :=
        (yearSearch_trailing_space _ htrail _ _).symm
    _ = (yearSearch false (s.dropWhile isSpaceChar)).isSome := by rw [← hsplit]
    _ = (yearSearch false s).isSome := yearSearch_leading_space s

theorem not_decomp_of_short (s : Str) (pw : Bool) (h : s.length < 4) :
    ¬ ∃ pre t post, s = pre ++ t ++ post ∧ yearShape t ∧
      leftBoundary pw pre ∧ rightBoundary post := by
  rintro ⟨pre, t, post, heq, ⟨a, b, c, d, rfl, _⟩, _, _⟩
  rw [heq] at h
  simp only [List.length_append, List.length_cons, List.length_nil] at h
  omega

theorem decomp_shift (a b c d : Char) (rest : Str) (pw : Bool)
    (hcond : ¬ (!pw && isYearStart a b && c.isDigit && d.isDigit &&
      headNotWord rest) = true) :
    (∃ pre t post, a :: b :: c :: d :: rest = pre ++ t ++ post ∧ yearShape t ∧
      leftBoundary pw pre ∧ rightBoundary post) ↔
    (∃ pre t post, b :: c :: d :: rest = pre ++ t ++ post ∧ yearShape t ∧
      leftBoundary (isWordChar a) pre ∧ rightBoundary post) := by
  constructor
  · rintro ⟨pre, t, post, heq, hsh, hlb, hrb⟩
    rcases pre with _ | ⟨p, pre2⟩
    · exfalso
      obtain ⟨ta, tb, tc, td, rfl, hys, hcd, hdd⟩ := hsh
      simp only [List.nil_append, List.cons_append, List.cons.injEq] at heq
      obtain ⟨rfl, rfl, rfl, rfl, h5⟩ := heq
      apply hcond
      have hpw : pw = false := hlb.1 rfl
      have hnw : headNotWord rest = true := by
        rw [h5]
        cases post with
        | nil => rfl
        | cons e r =>
          show (!isWordChar e) = true
          rw [hrb e rfl]
          rfl
      rw [hpw, hys, hcd, hdd, hnw]
      rfl
    · rw [List.cons_append, List.cons_append, List.cons.injEq] at heq
      obtain ⟨rfl, heq2⟩ := heq
      refine ⟨pre2, t, post, heq2, hsh, ⟨?_, ?_⟩, hrb⟩
      · intro hpre2
        subst hpre2
        exact hlb.2 a (by simp)
      · intro c2 hc2
        apply hlb.2 c2
        cases pre2 with
        | nil => cases hc2
        | cons q pre3 =>
          rw [List.getLast?_cons_cons]
          exact hc2
  · rintro ⟨pre, t, post, heq, hsh, hlb, hrb⟩
    refine ⟨a :: pre, t, post,
      by rw [List.cons_append, List.cons_append, heq], hsh, ⟨?_, ?_⟩, hrb⟩
    · intro h
      cases h
    · intro c2 hc2
      cases pre with
      | nil =>
        have : a = c2 := by simpa using hc2
        subst this
        exact hlb.1 rfl
      | cons q pre2 =>
        rw [List.getLast?_cons_cons] at hc2
        exact hlb.2 c2 hc2

theorem yearSearch_isSome_iff (s : Str) :
    ∀ pw, (yearSearch pw s).isSome = true ↔
      ∃ pre t post, s = pre ++ t ++ post ∧ yearShape t ∧
        leftBoundary pw pre ∧ rightBoundary post := by
  induction s with
  | nil =>
    intro pw
    constructor
    · intro h
      simp [yearSearch] at h
    · intro h
      exact absurd h (not_decomp_of_short [] pw (by simp))
  | cons a t ih =>
    intro pw
    rcases t with _ | ⟨b, t2⟩
    · constructor
      · intro h
        rw [yearSearch_short _ (by simp) pw] at h
        simp at h
      · intro h
        exact absurd h (not_decomp_of_short _ pw (by simp))
    · rcases t2 with _ | ⟨c, t3⟩
      · constructor
        · intro h
          rw [yearSearch_short _ (by simp) pw] at h
          simp at h
        · intro h
          exact absurd h (not_decomp_of_short _ pw (by simp))
      · rcases t3 with _ | ⟨d, rest⟩
        · constructor
          · intro h
            rw [yearSearch_short _ (by simp) pw] at h
            simp at h
          · intro h
            exact absurd h (not_decomp_of_short _ pw (by simp))
        · by_cases hcond : (!pw && isYearStart a b && c.isDigit && d.isDigit &&
              headNotWord rest) = true
          · constructor
            · intro _
              have hcond2 := hcond
              simp only [Bool.and_eq_true, Bool.not_eq_true'] at hcond2
              obtain ⟨⟨⟨⟨hpw, hys⟩, hcd⟩, hdd⟩, hnw⟩ := hcond2
              refine ⟨[], [a, b, c, d], rest, by simp,
                ⟨a, b, c, d, rfl, hys, hcd, hdd⟩, ⟨fun _ => hpw, ?_⟩, ?_⟩
              · intro c2 hc2
                cases hc2
              · intro c2 hc2
                cases rest with
                | nil => cases hc2
                | cons e r =>
                  have he : e = c2 := by simpa using hc2
                  subst he
                  have hnw2 : (!isWordChar e) = true := hnw
                  simpa using hnw2
            · intro _
              show (yearSearch pw (a :: b :: c :: d :: rest)).isSome = true
              simp only [yearSearch]
              rw [if_pos hcond]
              rfl
          · have hstep : yearSearch pw (a :: b :: c :: d :: rest) =
                yearSearch (isWordChar a) (b :: c :: d :: rest) := by
              simp only [yearSearch]
              rw [if_neg hcond]
            show (yearSearch pw (a :: b :: c :: d :: rest)).isSome = true ↔ _
            rw [hstep]
            exact (ih (isWordChar a)).trans (decomp_shift a b c d rest pw hcond).symm

theorem strToNat_four (a b c d : Char) :
    strToNat [a, b, c, d] =
      1000 * (a.toNat - 48) + 100 * (b.toNat - 48) + 10 * (c.toNat - 48) +
        (d.toNat - 48) := by
  show 10 * (10 * (10 * (10 * 0 + (a.toNat - 48)) + (b.toNat - 48)) + (c.toNat - 48)) +
      (d.toNat - 48) = _
  ring

theorem isYearStart_iff (a b : Char) :
    isYearStart a b = true ↔ (a = '1' ∧ b = '9') ∨ (a = '2' ∧ b = '0') := by
  unfold isYearStart
  simp only [Bool.or_eq_true, Bool.and_eq_true, decide_eq_true_eq]

theorem yearShape_iff_isYearToken (t : Str) : yearShape t ↔ isYearToken t := by
  have e1 : ('1' : Char).toNat = 49 := rfl
  have e9 : ('9' : Char).toNat = 57 := rfl
  have e2 : ('2' : Char).toNat = 50 := rfl
  have e0 : ('0' : Char).toNat = 48 := rfl
  constructor
  · rintro ⟨a, b, c, d, rfl, hys, hcd, hdd⟩
    have hc := (isDigit_iff_toNat c).mp hcd
    have hd := (isDigit_iff_toNat d).mp hdd
    have hdig : ∀ x ∈ [a, b, c, d], x.isDigit = true := by
      rcases (isYearStart_iff a b).mp hys with ⟨rfl, rfl⟩ | ⟨rfl, rfl⟩ <;>
        · intro x hx
          simp only [List.mem_cons, List.not_mem_nil, or_false] at hx
          rcases hx with rfl | rfl | rfl | rfl
          · decide
          · decide
          · exact hcd
          · exact hdd
    refine ⟨rfl, hdig, ?_, ?_⟩ <;>
      rcases (isYearStart_iff a b).mp hys with ⟨rfl, rfl⟩ | ⟨rfl, rfl⟩ <;>
        · rw [strToNat_four]
          omega
  · rintro ⟨hlen, hdig, hlo, hhi⟩
    rcases t with _ | ⟨a, _ | ⟨b, _ | ⟨c, _ | ⟨d, _ | ⟨e, t5⟩⟩⟩⟩⟩ <;>
      simp only [List.length_cons, List.length_nil] at hlen <;>
      first
        | omega
        | skip
    have ha := (isDigit_iff_toNat a).mp (hdig a (by simp))
    have hb := (isDigit_iff_toNat b).mp (hdig b (by simp))
    have hc := (isDigit_iff_toNat c).mp (hdig c (by simp))
    have hd := (isDigit_iff_toNat d).mp (hdig d (by simp))
    rw [strToNat_four] at hlo hhi
    have hse : (a.toNat = 49 ∧ b.toNat = 57) ∨ (a.toNat = 50 ∧ b.toNat = 48) := by
      omega
    refine ⟨a, b, c, d, rfl, ?_, hdig c (by simp), hdig d (by simp)⟩
    rw [isYearStart_iff]
    rcases hse with ⟨h1, h2⟩ | ⟨h1, h2⟩
    · exact Or.inl ⟨char_eq_of_toNat_eq (by omega), char_eq_of_toNat_eq (by omega)⟩
    · exact Or.inr ⟨char_eq_of_toNat_eq (by omega), char_eq_of_toNat_eq (by omega)⟩

/-- C8 (confirmed): the Normalizer extracts a non-None year iff the query
contains a 4-digit token (maximal word-character run) in range 1900-2099;
"2020 Honda CBR600" yields year "2020". -/
theorem year_extracted_iff_year_token :
    (∀ q : Str, ((extractSearchTerms q).year.isSome = true ↔ containsYearToken q)) ∧
    (extractSearchTerms ("2020 Honda CBR600".toList)).year = some ("2020".toList) := by
  constructor
  · intro q
    have h0 : (extractSearchTerms q).year = yearSearch false (stripStr (lowerStr q)) := rfl
    rw [h0, yearSearch_strip (lowerStr q), yearSearch_lower q false,
      yearSearch_isSome_iff q false]
    constructor
    · rintro ⟨pre, t, post, heq, hsh, hlb, hrb⟩
      exact ⟨pre, t, post, heq, (yearShape_iff_isYearToken t).mp hsh, hlb.2, hrb⟩
    · rintro ⟨pre, t, post, heq, hyt, hpre, hpost⟩
      exact ⟨pre, t, post, heq, (yearShape_iff_isYearToken t).mpr hyt,
        ⟨fun _ => rfl, hpre⟩, hpost⟩
  · decide

/-- C8 witness: the iff applied at the concrete query "2020 Honda CBR600". -/
theorem year_extracted_iff_year_token_witness :
    containsYearToken ("2020 Honda CBR600".toList) :=
  (year_extracted_iff_year_token.1 _).mp (by decide)
